import Mathlib

/-!
Shallow embedding of the watsonx-langflow-integration repository's
region model-catalog reconciliation logic, together with proofs of the
specification's claims about it.

Embedded source files:
* `src/components/utils/list_embeddings.py` — lifecycle filter
  (`is_deprecated_or_withdrawn`, the `.get`-based total variant), the
  per-region fetch loop (`fetch_active_models`) and the reconciler
  (`compare_to_reference`).
* `src/componets/utils/models.py` — the second lifecycle-filter variant
  (direct dictionary indexing, so it can raise a key-error), its fetch
  loop and `common_models` intersection.
* `src/components/llm/watsonx.py` — `WatsonxComponent.fetch_models` and
  its fallback list `_default_models`.

Modelling conventions:
* Python dictionaries coming from JSON are modelled as structures with
  `Option`-valued fields (a missing key is `none`); `d.get(k, v)` is
  `Option.getD`, `d[k]` on a missing key is a raised `KeyError`,
  modelled by propagating `none` in an `Option`-valued result.
* Python string comparison is code-point lexicographic; it is modelled
  by `strLe`, lexicographic order on `String.toList` (the code points),
  which agrees with Lean's `String` order but, unlike it, reduces in
  the kernel.
* Python `set` is `Finset String`; `sorted(set)` is `Finset.sort strLe`;
  `sorted(list)` is `List.insertionSort strLe` (for strings any correct
  sort yields the same list, since equal elements are identical).
* Python `dict` (insertion-ordered, unique keys) is an association list
  `List (String × _)`; `List.lookup` retrieves a key's value.
* The HTTP layer is abstracted into a `Response` value per region:
  a `requests.RequestException` (timeout, connection error, non-2xx via
  `raise_for_status`, JSON decode failure) is `Response.httpError`; a
  successfully parsed JSON body is `Response.ok resources`, where
  `resources` is `none` when the body has no "resources" key.
-/

namespace WatsonxSpec

/-- Python's string order: lexicographic comparison of code points,
written on `String.toList` so that it evaluates in the kernel. -/
def strLe (a b : String) : Prop := a.toList ≤ b.toList

instance : DecidableRel strLe :=
  fun a b => inferInstanceAs (Decidable (a.toList ≤ b.toList))

instance : IsTrans String strLe := ⟨fun _ _ _ h1 h2 => le_trans h1 h2⟩

instance : IsAntisymm String strLe :=
  ⟨fun _ _ h1 h2 => String.ext (le_antisymm h1 h2)⟩

instance : IsTotal String strLe := ⟨fun a b => le_total a.toList b.toList⟩

theorem strLe_iff_le (a b : String) : strLe a b ↔ a ≤ b :=
  (String.le_iff_toList_le).symm

theorem strLe_refl (a : String) : strLe a a := le_refl a.toList

/-- The empty string precedes every string in Python's order. -/
theorem empty_strLe (s : String) : strLe "" s := by
  show ("" : String).toList ≤ s.toList
  exact List.nil_le

/-- One entry of a model's "lifecycle" array: a JSON object whose "id"
and "start_date" keys may each be absent. -/
structure LifecycleEntry where
  id : Option String
  start_date : Option String
deriving DecidableEq, Repr

/-- One element of the response's "resources" array: a JSON object with
possibly-absent "model_id" and "lifecycle" keys. -/
structure Resource where
  model_id : Option String
  lifecycle : Option (List LifecycleEntry)
deriving DecidableEq, Repr

namespace ListEmbeddings

/-- Embedding of `is_deprecated_or_withdrawn` from `list_embeddings.py` (lines 52-56):
iterates over the lifecycle entries and returns `true` as soon as one has
`entry.get("id")` in `{"deprecated", "withdrawn"}` and
`entry.get("start_date", "") <= TODAY`; otherwise `false`.  Total: a
missing "start_date" defaults to the empty string. -/
def is_deprecated_or_withdrawn (lifecycle : List LifecycleEntry)
    (today : String) : Bool :=
  lifecycle.any fun entry =>
    decide (entry.id = some "deprecated" ∨ entry.id = some "withdrawn") &&
      decide (strLe (entry.start_date.getD "") today)

end ListEmbeddings

namespace Models

/-- Embedding of `is_deprecated_or_withdrawn` from `models.py` (lines 40-43): same
loop, but `entry["id"]` and `entry["start_date"]` index the dictionary
directly, so a missing key raises `KeyError` (modelled as `none`).
`entry["start_date"]` is only evaluated when the id test already
succeeded, mirroring Python's short-circuit `and`. -/
def is_deprecated_or_withdrawn : List LifecycleEntry → String → Option Bool
  | [], _ => some false
  | entry :: rest, today =>
    match entry.id with
    | none => none
    | some i =>
      if i = "deprecated" ∨ i = "withdrawn" then
        match entry.start_date with
        | none => none
        | some d =>
          if strLe d today then some true
          else is_deprecated_or_withdrawn rest today
      else is_deprecated_or_withdrawn rest today

/-- Embedding of `common_models` from `models.py` (line 105):
`set.intersection(*model_sets.values())` — raises a `TypeError` when
called with no sets at all (empty mapping), otherwise intersects the
first set with all the others. -/
def common_models : List (Finset String) → Option (Finset String)
  | [] => none
  | s :: rest => some (rest.foldl (· ∩ ·) s)

end Models

/-- The outcome of one region's HTTP GET, after `requests` has done its
work: `httpError` covers everything raised as a `RequestException`
(timeout, connection error, non-2xx status from `raise_for_status`,
JSON decode failure); `ok resources` is a parsed JSON body, with
`resources = none` when the body lacks the "resources" key. -/
inductive Response where
  | httpError
  | ok (resources : Option (List Resource))
deriving DecidableEq, Repr

namespace ListEmbeddings

/-- The set comprehension in `fetch_active_models` (lines 69-73):
`{m["model_id"] for m in resources if not is_deprecated_or_withdrawn(m.get("lifecycle", []))}`.
The filter is evaluated for every element; `m["model_id"]` is evaluated
only for elements that pass it and raises `KeyError` (modelled `none`)
when the key is absent. -/
def activeModels (resources : List Resource) (today : String) :
    Option (Finset String) :=
  resources.foldlM
    (fun acc m =>
      if is_deprecated_or_withdrawn (m.lifecycle.getD []) today then some acc
      else
        match m.model_id with
        | none => none
        | some i => some (insert i acc))
    (∅ : Finset String)

/-- What one iteration of the fetch loop stores for a region: a
`RequestException` is caught and yields the empty set; a parsed body is
filtered by the lifecycle predicate (raising, hence `none`, when a
surviving element lacks "model_id"). -/
def regionResult (resp : Response) (today : String) : Option (Finset String) :=
  match resp with
  | .httpError => some ∅
  | .ok resources => activeModels (resources.getD []) today

/-- One log line per region in the fetch loop: the success path logs the
count of active models, the `except` branch logs the failure. -/
inductive LogEntry where
  | fetched (base : String) (count : Nat)
  | fetchFailed (base : String)
deriving DecidableEq, Repr

/-- Embedding of `fetch_active_models` (lines 59-79), with the HTTP layer abstracted
to a `Response` per base URL: builds the `model_sets` mapping and the
log, region by region.  An uncaught exception (a `KeyError` from the
comprehension) aborts the whole run, modelled by a `none` result. -/
def fetch_active_models :
    List (String × Response) → String →
      Option (List (String × Finset String) × List LogEntry)
  | [], _ => some ([], [])
  | (base, resp) :: rest, today =>
    match resp with
    | .httpError =>
      match fetch_active_models rest today with
      | none => none
      | some (sets, logs) =>
        some ((base, ∅) :: sets, .fetchFailed base :: logs)
    | .ok resources =>
      match activeModels (resources.getD []) today with
      | none => none
      | some s =>
        match fetch_active_models rest today with
        | none => none
        | some (sets, logs) =>
          some ((base, s) :: sets, .fetched base s.card :: logs)

/-- Embedding of `compare_to_reference` (lines 140-155).  The reference set defaults
to empty when `ref_region` is not a key (`model_sets.get(ref_region,
set())`); `missing` and `unique` keep every key other than the
reference; the final `set.intersection(*model_sets.values())` raises on
an empty mapping, so the whole call is `none` there. -/
def compare_to_reference (model_sets : List (String × Finset String))
    (ref_region : String) :
    Option (List (String × List String) × List (String × List String) ×
      List String) :=
  let ref := (model_sets.lookup ref_region).getD ∅
  let missing := (model_sets.filter fun p => p.1 != ref_region).map
    fun p => (p.1, (ref \ p.2).sort strLe)
  let unique := (model_sets.filter fun p => p.1 != ref_region).map
    fun p => (p.1, (p.2 \ ref).sort strLe)
  match Models.common_models (model_sets.map Prod.snd) with
  | none => none
  | some common => some (missing, unique, common.sort strLe)

end ListEmbeddings

namespace WatsonxComponent

/-- The outcome of the single GET in `WatsonxComponent.fetch_models`:
`requestError` is a `requests.RequestException` (network error, non-2xx
status), `valueError` a JSON decode `ValueError`, `ok` a parsed body
(`none` when the "resources" key is absent). -/
inductive FetchOutcome where
  | requestError
  | valueError
  | ok (resources : Option (List Resource))
deriving DecidableEq, Repr

/-- Embedding of `WatsonxComponent._default_models` (`watsonx.py` line 32). -/
def _default_models : List String :=
  ["ibm/granite-3-2b-instruct", "ibm/granite-3-8b-instruct",
   "ibm/granite-13b-instruct-v2"]

/-- Embedding of `WatsonxComponent.fetch_models` (`watsonx.py` lines 141-176): on
success, `sorted([model["model_id"] for model in data.get("resources", [])])`;
every exception — `RequestException`, JSON `ValueError`, and anything
else, including the `KeyError` from a resources element without
"model_id" (caught by the final `except Exception`) — falls back to
`_default_models`. -/
def fetch_models (outcome : FetchOutcome) : List String :=
  match outcome with
  | .requestError => _default_models
  | .valueError => _default_models
  | .ok resources =>
    match (resources.getD []).mapM Resource.model_id with
    | none => _default_models
    | some models => models.insertionSort strLe

end WatsonxComponent

/-! ## Helper lemmas about the lifecycle filters -/

/-- The predicate the specification uses for "not active": some entry is
deprecated or withdrawn with a start date at or before the evaluation
date. -/
def SpecExcluded (l : List LifecycleEntry) (D : String) : Prop :=
  ∃ e ∈ l, (e.id = some "deprecated" ∨ e.id = some "withdrawn") ∧
    ∃ d, e.start_date = some d ∧ strLe d D

theorem filter_le_iff (l : List LifecycleEntry) (D : String)
    (h : ∀ e ∈ l, (e.id = some "deprecated" ∨ e.id = some "withdrawn") →
      e.start_date.isSome) :
    ListEmbeddings.is_deprecated_or_withdrawn l D = true ↔ SpecExcluded l D := by
  unfold ListEmbeddings.is_deprecated_or_withdrawn SpecExcluded
  rw [List.any_eq_true]
  constructor
  · rintro ⟨e, he, hp⟩
    rw [Bool.and_eq_true, decide_eq_true_eq, decide_eq_true_eq] at hp
    obtain ⟨hid, hd⟩ := hp
    obtain ⟨d, hd'⟩ := Option.isSome_iff_exists.mp (h e he hid)
    refine ⟨e, he, hid, d, hd', ?_⟩
    rwa [hd', Option.getD_some] at hd
  · rintro ⟨e, he, hid, d, hd, hle⟩
    refine ⟨e, he, ?_⟩
    rw [Bool.and_eq_true, decide_eq_true_eq, decide_eq_true_eq]
    exact ⟨hid, by rwa [hd, Option.getD_some]⟩

theorem filter_m_eq_filter_le (l : List LifecycleEntry) (today : String)
    (h : ∀ e ∈ l, e.id.isSome ∧ e.start_date.isSome) :
    Models.is_deprecated_or_withdrawn l today =
      some (ListEmbeddings.is_deprecated_or_withdrawn l today) := by
  induction l with
  | nil => rfl
  | cons e rest ih =>
    have hmem := h e (List.mem_cons_self e rest)
    have ih' := ih fun x hx => h x (List.mem_cons_of_mem e hx)
    obtain ⟨eid, esd⟩ := e
    obtain ⟨i, hi⟩ := Option.isSome_iff_exists.mp hmem.1
    obtain ⟨d, hd⟩ := Option.isSome_iff_exists.mp hmem.2
    dsimp only at hi hd
    subst hi hd
    by_cases hdep : i = "deprecated" ∨ i = "withdrawn"
    · by_cases hle : strLe d today
      · rcases hdep with rfl | rfl <;>
          simp [Models.is_deprecated_or_withdrawn,
            ListEmbeddings.is_deprecated_or_withdrawn, hle]
      · rcases hdep with rfl | rfl <;>
          simp [Models.is_deprecated_or_withdrawn,
            ListEmbeddings.is_deprecated_or_withdrawn, hle, ih']
    · push_neg at hdep
      simp [Models.is_deprecated_or_withdrawn,
        ListEmbeddings.is_deprecated_or_withdrawn, hdep.1, hdep.2, ih',
        Option.some.injEq]

/-! ## Claims about the lifecycle filters -/

/-- C1: for every lifecycle sequence (whose entries are well-formed
`{id, start_date}` pairs, as the data model prescribes) and every date
D, both variants of the lifecycle filter classify the model as not
active exactly when some entry has id in {"deprecated", "withdrawn"}
and start_date lexically at most D; and for every D the empty lifecycle
sequence yields active. -/
theorem lifecycle_filter_spec (l : List LifecycleEntry) (D : String)
    (h : ∀ e ∈ l, e.id.isSome ∧ e.start_date.isSome) :
    (ListEmbeddings.is_deprecated_or_withdrawn l D = true ↔ SpecExcluded l D) ∧
    (Models.is_deprecated_or_withdrawn l D = some true ↔ SpecExcluded l D) ∧
    ListEmbeddings.is_deprecated_or_withdrawn [] D = false ∧
    Models.is_deprecated_or_withdrawn [] D = some false := by
  have hle := filter_le_iff l D fun e he _ => (h e he).2
  refine ⟨hle, ?_, rfl, rfl⟩
  rw [filter_m_eq_filter_le l D h, Option.some_inj]
  constructor
  · intro hb; exact hle.mp hb
  · intro hs; exact hle.mpr hs

/-- C1 witness: a concrete deprecated model with start date before the
evaluation date is classified as not active by both variants. -/
theorem lifecycle_filter_spec_witness :
    (ListEmbeddings.is_deprecated_or_withdrawn
        [⟨some "deprecated", some "2020-01-01"⟩] "2024-01-01" = true ↔
      SpecExcluded [⟨some "deprecated", some "2020-01-01"⟩] "2024-01-01") ∧
    (Models.is_deprecated_or_withdrawn
        [⟨some "deprecated", some "2020-01-01"⟩] "2024-01-01" = some true ↔
      SpecExcluded [⟨some "deprecated", some "2020-01-01"⟩] "2024-01-01") ∧
    ListEmbeddings.is_deprecated_or_withdrawn [] "2024-01-01" = false ∧
    Models.is_deprecated_or_withdrawn [] "2024-01-01" = some false :=
  lifecycle_filter_spec [⟨some "deprecated", some "2020-01-01"⟩] "2024-01-01"
    (by decide)

/-- C9: on lifecycle sequences whose entries all carry both an "id" and
a "start_date" key, the two variant filters agree: the `models.py`
variant returns exactly the boolean the `list_embeddings.py` variant
computes. -/
theorem variants_extensionally_equal (l : List LifecycleEntry) (today : String)
    (h : ∀ e ∈ l, e.id.isSome ∧ e.start_date.isSome) :
    Models.is_deprecated_or_withdrawn l today =
      some (ListEmbeddings.is_deprecated_or_withdrawn l today) :=
  filter_m_eq_filter_le l today h

/-- C9 witness: the two variants agree on a concrete two-entry
lifecycle. -/
theorem variants_extensionally_equal_witness :
    Models.is_deprecated_or_withdrawn
        [⟨some "general_availability", some "2019-05-01"⟩,
         ⟨some "deprecated", some "2099-01-01"⟩] "2024-01-01" =
      some (ListEmbeddings.is_deprecated_or_withdrawn
        [⟨some "general_availability", some "2019-05-01"⟩,
         ⟨some "deprecated", some "2099-01-01"⟩] "2024-01-01") :=
  variants_extensionally_equal _ "2024-01-01" (by decide)

/-- C10: in the `list_embeddings.py` variant, a deprecated or withdrawn
entry with no "start_date" key defaults to the empty string, which
precedes every date, so the model is classified not active for every
evaluation date. -/
theorem missing_start_date_excludes (l : List LifecycleEntry) (D : String)
    (h : ∃ e ∈ l, (e.id = some "deprecated" ∨ e.id = some "withdrawn") ∧
      e.start_date = none) :
    ListEmbeddings.is_deprecated_or_withdrawn l D = true := by
  obtain ⟨e, he, hid, hsd⟩ := h
  unfold ListEmbeddings.is_deprecated_or_withdrawn
  rw [List.any_eq_true]
  refine ⟨e, he, ?_⟩
  rw [Bool.and_eq_true, decide_eq_true_eq, decide_eq_true_eq]
  refine ⟨hid, ?_⟩
  rw [hsd, Option.getD_none]
  exact empty_strLe D

/-- C10 witness: a withdrawn entry lacking "start_date" excludes the
model at a concrete date. -/
theorem missing_start_date_excludes_witness :
    ListEmbeddings.is_deprecated_or_withdrawn
      [⟨some "withdrawn", none⟩] "2024-06-30" = true :=
  missing_start_date_excludes [⟨some "withdrawn", none⟩] "2024-06-30"
    ⟨⟨some "withdrawn", none⟩, List.mem_singleton_self _, Or.inr rfl, rfl⟩

/-- C7 counterexample: a lifecycle sequence that does contain a
deprecated entry lacking "start_date", yet on which the `models.py`
filter returns a boolean rather than raising — the earlier deprecated
entry already triggered, so the defective entry is never reached.  This
refutes the claim's universal quantification. -/
theorem models_filter_keyerror_counterexample :
    Models.is_deprecated_or_withdrawn
      [⟨some "deprecated", some "2020-01-01"⟩, ⟨some "deprecated", none⟩]
      "2024-01-01" = some true := by decide

/-- C7 (amended): in the `models.py` variant, a deprecated or withdrawn
entry lacking "start_date" makes evaluation raise a key-error provided
the entry is actually reached: every earlier entry carries an "id" key
and every earlier deprecated/withdrawn entry has a start date strictly
after the evaluation date (an earlier one at or before it would return
true first). -/
theorem models_filter_keyerror (l1 l2 : List LifecycleEntry)
    (e : LifecycleEntry) (today : String)
    (he1 : e.id = some "deprecated" ∨ e.id = some "withdrawn")
    (he2 : e.start_date = none)
    (h1 : ∀ x ∈ l1, x.id.isSome)
    (h2 : ∀ x ∈ l1, (x.id = some "deprecated" ∨ x.id = some "withdrawn") →
      ∃ d, x.start_date = some d ∧ ¬ strLe d today) :
    Models.is_deprecated_or_withdrawn (l1 ++ e :: l2) today = none := by
  induction l1 with
  | nil =>
    rcases he1 with hid | hid <;>
      simp [Models.is_deprecated_or_withdrawn, hid, he2]
  | cons x t ih =>
    have hxid := h1 x (List.mem_cons_self x t)
    obtain ⟨i, hi⟩ := Option.isSome_iff_exists.mp hxid
    have ih' := ih (fun y hy => h1 y (List.mem_cons_of_mem x hy))
      (fun y hy => h2 y (List.mem_cons_of_mem x hy))
    obtain ⟨xid, xsd⟩ := x
    dsimp only at hi
    subst hi
    by_cases hdep : i = "deprecated" ∨ i = "withdrawn"
    · obtain ⟨d, hd, hnle⟩ := h2 ⟨some i, xsd⟩ (List.mem_cons_self _ _)
        (by dsimp only
            rcases hdep with rfl | rfl
            · exact Or.inl rfl
            · exact Or.inr rfl)
      dsimp only at hd
      subst hd
      rcases hdep with rfl | rfl <;>
        simp [Models.is_deprecated_or_withdrawn, hnle, ih']
    · push_neg at hdep
      simp [Models.is_deprecated_or_withdrawn, hdep.1, hdep.2, ih']

/-- C7 witness for the amended claim: a withdrawn entry without
"start_date" preceded by a general-availability entry raises. -/
theorem models_filter_keyerror_witness :
    Models.is_deprecated_or_withdrawn
      [⟨some "general_availability", some "2019-01-01"⟩,
       ⟨some "withdrawn", none⟩] "2024-01-01" = none :=
  models_filter_keyerror [⟨some "general_availability", some "2019-01-01"⟩]
    [] ⟨some "withdrawn", none⟩ "2024-01-01" (Or.inr rfl) rfl (by decide)
    (by intro x hx hid
        rw [List.mem_singleton] at hx
        subst hx
        exact absurd hid (by decide))

/-! ## Helper lemmas about the reconciler -/

theorem lookup_filter_map {β : Type} (l : List (String × Finset String))
    (g : Finset String → β) (ref r : String) (hr : r ≠ ref) :
    ((l.filter fun p => p.1 != ref).map fun p => (p.1, g p.2)).lookup r =
      (l.lookup r).map g := by
  induction l with
  | nil => rfl
  | cons a t ih =>
    rcases a with ⟨k, v⟩
    by_cases hk : k = ref
    · subst hk
      have h1 : ((k, v).1 != k) = false := by simp
      have h2 : (r == k) = false := beq_eq_false_iff_ne.mpr hr
      simp only [List.filter_cons, h1, List.lookup_cons, h2, cond_false]
      exact ih
    · have h1 : ((k, v).1 != ref) = true := by simp [hk]
      by_cases hrk : r = k
      · subst hrk
        simp only [List.filter_cons, h1, if_true, List.map_cons,
          List.lookup_cons, beq_self_eq_true, cond_true, Option.map_some]
        rfl
      · have h2 : (r == k) = false := beq_eq_false_iff_ne.mpr hrk
        simp only [List.filter_cons, h1, if_true, List.map_cons,
          List.lookup_cons, h2, cond_false]
        exact ih

theorem mem_foldl_inter (m : String) (s : Finset String)
    (rest : List (Finset String)) :
    m ∈ rest.foldl (· ∩ ·) s ↔ m ∈ s ∧ ∀ t ∈ rest, m ∈ t := by
  induction rest generalizing s with
  | nil => simp
  | cons t ts ih =>
    rw [List.foldl_cons, ih]
    simp only [Finset.mem_inter, List.mem_cons]
    constructor
    · rintro ⟨⟨hs, ht⟩, hts⟩
      exact ⟨hs, fun u hu => hu.elim (fun hrfl => hrfl ▸ ht) (hts u)⟩
    · rintro ⟨hs, hall⟩
      exact ⟨⟨hs, hall t (Or.inl rfl)⟩, fun u hu => hall u (Or.inr hu)⟩

theorem common_models_of_ne_nil (sets : List (Finset String))
    (h : sets ≠ []) :
    ∃ c, Models.common_models sets = some c ∧
      ∀ m, m ∈ c ↔ ∀ s ∈ sets, m ∈ s := by
  match sets with
  | [] => exact absurd rfl h
  | s :: rest =>
    refine ⟨rest.foldl (· ∩ ·) s, rfl, fun m => ?_⟩
    rw [mem_foldl_inter]
    simp only [List.mem_cons]
    constructor
    · rintro ⟨hs, hall⟩
      exact fun u hu => hu.elim (fun hrfl => hrfl ▸ hs) (hall u)
    · intro hall
      exact ⟨hall s (Or.inl rfl), fun u hu => hall u (Or.inr hu)⟩

/-! ## Claims about the reconciler -/

/-- C2: for a mapping containing the reference key, and any other region
r in the mapping, the reconciler's missing[r] is the sorted reference
minus r, unique[r] is the sorted r minus reference; the reference set
splits as intersection plus missing, r's set as intersection plus
unique, both lists are disjoint from the intersection, duplicate-free
and sorted ascending. -/
theorem reconcile_missing_unique (model_sets : List (String × Finset String))
    (ref_region r : String) (refSet rs : Finset String)
    (h1 : model_sets.lookup ref_region = some refSet)
    (h2 : model_sets.lookup r = some rs)
    (hne : r ≠ ref_region) :
    ∃ mi un co,
      ListEmbeddings.compare_to_reference model_sets ref_region =
        some (mi, un, co) ∧
      mi.lookup r = some ((refSet \ rs).sort strLe) ∧
      un.lookup r = some ((rs \ refSet).sort strLe) ∧
      refSet ∩ rs ∪ refSet \ rs = refSet ∧
      refSet ∩ rs ∪ rs \ refSet = rs ∧
      Disjoint (refSet ∩ rs) (refSet \ rs) ∧
      Disjoint (refSet ∩ rs) (rs \ refSet) ∧
      (∀ x, x ∈ (refSet \ rs).sort strLe ↔ x ∈ refSet ∧ x ∉ rs) ∧
      (∀ x, x ∈ (rs \ refSet).sort strLe ↔ x ∈ rs ∧ x ∉ refSet) ∧
      ((refSet \ rs).sort strLe).Nodup ∧
      ((rs \ refSet).sort strLe).Nodup ∧
      List.Sorted strLe ((refSet \ rs).sort strLe) ∧
      List.Sorted strLe ((rs \ refSet).sort strLe) := by
  have hnil : model_sets ≠ [] := by
    intro hn
    rw [hn] at h1
    exact Option.noConfusion h1
  obtain ⟨c, hc, _⟩ := common_models_of_ne_nil (model_sets.map Prod.snd)
    (by simpa using hnil)
  have hcomp : ListEmbeddings.compare_to_reference model_sets ref_region =
      some ((model_sets.filter fun p => p.1 != ref_region).map
              (fun p => (p.1, (refSet \ p.2).sort strLe)),
            (model_sets.filter fun p => p.1 != ref_region).map
              (fun p => (p.1, (p.2 \ refSet).sort strLe)),
            c.sort strLe) := by
    simp only [ListEmbeddings.compare_to_reference, hc, h1, Option.getD_some]
  refine ⟨_, _, _, hcomp, ?_, ?_, ?_, ?_, ?_, ?_, ?_, ?_, ?_, ?_, ?_, ?_⟩
  · rw [lookup_filter_map model_sets (fun s => (refSet \ s).sort strLe)
      ref_region r hne, h2]
    rfl
  · rw [lookup_filter_map model_sets (fun s => (s \ refSet).sort strLe)
      ref_region r hne, h2]
    rfl
  · rw [Finset.union_comm]
    exact Finset.sdiff_union_inter refSet rs
  · rw [Finset.inter_comm, Finset.union_comm]
    exact Finset.sdiff_union_inter rs refSet
  · rw [Finset.disjoint_left]
    intro a ha hb
    rw [Finset.mem_inter] at ha
    rw [Finset.mem_sdiff] at hb
    exact hb.2 ha.2
  · rw [Finset.disjoint_left]
    intro a ha hb
    rw [Finset.mem_inter] at ha
    rw [Finset.mem_sdiff] at hb
    exact hb.2 ha.1
  · intro x
    rw [Finset.mem_sort, Finset.mem_sdiff]
  · intro x
    rw [Finset.mem_sort, Finset.mem_sdiff]
  · exact Finset.sort_nodup strLe _
  · exact Finset.sort_nodup strLe _
  · exact Finset.sort_sorted strLe _
  · exact Finset.sort_sorted strLe _

/-- C2 witness: the reconciler applied to the spec's Scenario 1,
regions A = {m1, m2} and B = {m2, m3} with reference A. -/
theorem reconcile_missing_unique_witness :
    ∃ mi un co,
      ListEmbeddings.compare_to_reference
        [("A", {"m1", "m2"}), ("B", {"m2", "m3"})] "A" = some (mi, un, co) ∧
      mi.lookup "B" =
        some ((({"m1", "m2"} : Finset String) \ {"m2", "m3"}).sort strLe) ∧
      un.lookup "B" =
        some ((({"m2", "m3"} : Finset String) \ {"m1", "m2"}).sort strLe) ∧
      ({"m1", "m2"} : Finset String) ∩ {"m2", "m3"} ∪
          ({"m1", "m2"} : Finset String) \ {"m2", "m3"} = {"m1", "m2"} ∧
      ({"m1", "m2"} : Finset String) ∩ {"m2", "m3"} ∪
          ({"m2", "m3"} : Finset String) \ {"m1", "m2"} = {"m2", "m3"} ∧
      Disjoint (({"m1", "m2"} : Finset String) ∩ {"m2", "m3"})
        (({"m1", "m2"} : Finset String) \ {"m2", "m3"}) ∧
      Disjoint (({"m1", "m2"} : Finset String) ∩ {"m2", "m3"})
        (({"m2", "m3"} : Finset String) \ {"m1", "m2"}) ∧
      (∀ x, x ∈ (({"m1", "m2"} : Finset String) \ {"m2", "m3"}).sort strLe ↔
        x ∈ ({"m1", "m2"} : Finset String) ∧ x ∉ ({"m2", "m3"} : Finset String)) ∧
      (∀ x, x ∈ (({"m2", "m3"} : Finset String) \ {"m1", "m2"}).sort strLe ↔
        x ∈ ({"m2", "m3"} : Finset String) ∧ x ∉ ({"m1", "m2"} : Finset String)) ∧
      ((({"m1", "m2"} : Finset String) \ {"m2", "m3"}).sort strLe).Nodup ∧
      ((({"m2", "m3"} : Finset String) \ {"m1", "m2"}).sort strLe).Nodup ∧
      List.Sorted strLe ((({"m1", "m2"} : Finset String) \ {"m2", "m3"}).sort strLe) ∧
      List.Sorted strLe ((({"m2", "m3"} : Finset String) \ {"m1", "m2"}).sort strLe) :=
  reconcile_missing_unique [("A", {"m1", "m2"}), ("B", {"m2", "m3"})] "A" "B"
    {"m1", "m2"} {"m2", "m3"} (by decide) (by decide) (by decide)

/-- C5: when the reference key is absent from the mapping, the
reconciler silently treats the reference set as empty: it still returns
a result in which every region's missing list is empty and its unique
list is its whole set, sorted. -/
theorem reconcile_absent_reference (model_sets : List (String × Finset String))
    (ref_region r : String) (rs : Finset String)
    (h1 : model_sets.lookup ref_region = none)
    (h2 : model_sets.lookup r = some rs) :
    ∃ mi un co,
      ListEmbeddings.compare_to_reference model_sets ref_region =
        some (mi, un, co) ∧
      mi.lookup r = some [] ∧
      un.lookup r = some (rs.sort strLe) := by
  have hne : r ≠ ref_region := by
    intro hrfl
    rw [hrfl, h1] at h2
    exact Option.noConfusion h2
  have hnil : model_sets ≠ [] := by
    intro hn
    rw [hn] at h2
    exact Option.noConfusion h2
  obtain ⟨c, hc, _⟩ := common_models_of_ne_nil (model_sets.map Prod.snd)
    (by simpa using hnil)
  have hcomp : ListEmbeddings.compare_to_reference model_sets ref_region =
      some ((model_sets.filter fun p => p.1 != ref_region).map
              (fun p => (p.1, ((∅ : Finset String) \ p.2).sort strLe)),
            (model_sets.filter fun p => p.1 != ref_region).map
              (fun p => (p.1, (p.2 \ (∅ : Finset String)).sort strLe)),
            c.sort strLe) := by
    simp only [ListEmbeddings.compare_to_reference, hc, h1, Option.getD_none]
  refine ⟨_, _, _, hcomp, ?_, ?_⟩
  · rw [lookup_filter_map model_sets
      (fun s => ((∅ : Finset String) \ s).sort strLe) ref_region r hne, h2]
    simp [Finset.empty_sdiff]
  · rw [lookup_filter_map model_sets
      (fun s => (s \ (∅ : Finset String)).sort strLe) ref_region r hne, h2]
    simp [Finset.sdiff_empty]

/-- C5 witness: with reference key "A" absent, region "B" reports no
missing models and all of its models as unique. -/
theorem reconcile_absent_reference_witness :
    ∃ mi un co,
      ListEmbeddings.compare_to_reference [("B", {"m2", "m3"})] "A" =
        some (mi, un, co) ∧
      mi.lookup "B" = some [] ∧
      un.lookup "B" = some (({"m2", "m3"} : Finset String).sort strLe) :=
  reconcile_absent_reference [("B", {"m2", "m3"})] "A" "B" {"m2", "m3"}
    (by decide) (by decide)

/-- C6: on an empty mapping the all-region intersection raises instead
of returning a value (both in `compare_to_reference` and in the
standalone `common_models`); on any non-empty mapping the reconciler
returns, and its third component is the duplicate-free ascending list
of exactly the models present in every region's set. -/
theorem intersection_requires_nonempty :
    (∀ ref_region, ListEmbeddings.compare_to_reference [] ref_region = none) ∧
    Models.common_models [] = none ∧
    ∀ (model_sets : List (String × Finset String)) (ref_region : String),
      model_sets ≠ [] →
      ∃ mi un co,
        ListEmbeddings.compare_to_reference model_sets ref_region =
          some (mi, un, co) ∧
        List.Sorted strLe co ∧ co.Nodup ∧
        ∀ m, m ∈ co ↔ ∀ p ∈ model_sets, m ∈ p.2 := by
  refine ⟨fun _ => rfl, rfl, ?_⟩
  intro model_sets ref_region hnil
  obtain ⟨c, hc, hmem⟩ := common_models_of_ne_nil (model_sets.map Prod.snd)
    (by simpa using hnil)
  have hcomp : ListEmbeddings.compare_to_reference model_sets ref_region =
      some ((model_sets.filter fun p => p.1 != ref_region).map
              (fun p => (p.1,
                (((model_sets.lookup ref_region).getD ∅) \ p.2).sort strLe)),
            (model_sets.filter fun p => p.1 != ref_region).map
              (fun p => (p.1,
                (p.2 \ ((model_sets.lookup ref_region).getD ∅)).sort strLe)),
            c.sort strLe) := by
    simp only [ListEmbeddings.compare_to_reference, hc]
  refine ⟨_, _, _, hcomp, Finset.sort_sorted strLe c, Finset.sort_nodup strLe c,
    fun m => ?_⟩
  rw [Finset.mem_sort, hmem m]
  constructor
  · intro hall p hp
    exact hall p.2 (List.mem_map_of_mem Prod.snd hp)
  · intro hall s hs
    obtain ⟨p, hp, hrfl⟩ := List.mem_map.mp hs
    exact hrfl ▸ hall p hp

/-- C6 witness: the intersection over the two-region mapping of the
spec's Scenario 1 exists, is sorted and duplicate-free, and contains
exactly the common models. -/
theorem intersection_requires_nonempty_witness :
    ∃ mi un co,
      ListEmbeddings.compare_to_reference
        [("A", {"m1", "m2"}), ("B", {"m2", "m3"})] "A" = some (mi, un, co) ∧
      List.Sorted strLe co ∧ co.Nodup ∧
      ∀ m, m ∈ co ↔
        ∀ p ∈ [(("A" : String), ({"m1", "m2"} : Finset String)),
               ("B", {"m2", "m3"})], m ∈ p.2 :=
  intersection_requires_nonempty.2.2
    [("A", {"m1", "m2"}), ("B", {"m2", "m3"})] "A" (by decide)

/-! ## Helper lemmas about the fetch loop -/

namespace ListEmbeddings

/-- The log line one loop iteration produces when it completes. -/
def logOf (p : String × Response) (today : String) : LogEntry :=
  match p.2 with
  | .httpError => .fetchFailed p.1
  | .ok _ => .fetched p.1 ((regionResult p.2 today).getD ∅).card

/-- The per-region sets a list of responses yields when every region's
iteration completes. -/
def resultsOf (l : List (String × Response)) (today : String) :
    List (String × Finset String) :=
  l.map fun p => (p.1, (regionResult p.2 today).getD ∅)

/-- The log a list of responses yields when every region's iteration
completes. -/
def logsOf (l : List (String × Response)) (today : String) : List LogEntry :=
  l.map fun p => logOf p today

theorem fetch_eq_of_all_ok (l : List (String × Response)) (today : String)
    (h : ∀ p ∈ l, (regionResult p.2 today).isSome) :
    fetch_active_models l today = some (resultsOf l today, logsOf l today) := by
  induction l with
  | nil => rfl
  | cons p t ih =>
    have ih' := ih fun q hq => h q (List.mem_cons_of_mem p hq)
    rcases p with ⟨b, resp⟩
    cases resp with
    | httpError =>
      simp only [fetch_active_models, ih', resultsOf, logsOf, List.map_cons]
      rfl
    | ok resources =>
      have hs := h (b, Response.ok resources) (List.mem_cons_self _ _)
      obtain ⟨s, hs'⟩ := Option.isSome_iff_exists.mp hs
      have hact : activeModels (resources.getD []) today = some s := hs'
      simp only [fetch_active_models, hact, ih', resultsOf, logsOf,
        List.map_cons, logOf, regionResult, Option.getD_some]

theorem fetch_none_of_mem (l : List (String × Response)) (today b : String)
    (resp : Response) (hmem : (b, resp) ∈ l)
    (h : regionResult resp today = none) :
    fetch_active_models l today = none := by
  induction l with
  | nil => exact absurd hmem (List.not_mem_nil _)
  | cons p t ih =>
    rcases List.mem_cons.mp hmem with hrfl | htail
    · rcases p with ⟨b', resp'⟩
      obtain ⟨hb, hresp⟩ := Prod.mk.injEq .. ▸ hrfl.symm
      subst hb
      cases resp' with
      | httpError => exact absurd (hresp ▸ h) (by simp [regionResult])
      | ok resources =>
        have : activeModels (resources.getD []) today = none := by
          rw [← hresp] at h
          exact h
        simp only [fetch_active_models, this]
    · rcases p with ⟨b', resp'⟩
      cases resp' with
      | httpError => simp only [fetch_active_models, ih htail]
      | ok resources =>
        cases hact : activeModels (resources.getD []) today with
        | none => simp only [fetch_active_models, hact]
        | some s => simp only [fetch_active_models, hact, ih htail]

end ListEmbeddings

/-! ## Claims about the fetch loop -/

/-- C3: a region whose fetch raises a request-level error (timeout,
connection error, non-2xx status) is recorded with the empty set (count
0), the failure is logged, the loop continues and the run completes;
every other region's recorded set and log line are exactly what they
would be had the failing region succeeded. -/
theorem fetch_isolates_region_failure (l1 l2 : List (String × Response))
    (b : String) (r' : Response) (today : String) (s' : Finset String)
    (h1 : ∀ p ∈ l1 ++ l2, (ListEmbeddings.regionResult p.2 today).isSome)
    (h2 : ListEmbeddings.regionResult r' today = some s') :
    ListEmbeddings.fetch_active_models
        (l1 ++ (b, Response.httpError) :: l2) today =
      some (ListEmbeddings.resultsOf l1 today ++
              (b, (∅ : Finset String)) :: ListEmbeddings.resultsOf l2 today,
            ListEmbeddings.logsOf l1 today ++
              ListEmbeddings.LogEntry.fetchFailed b ::
                ListEmbeddings.logsOf l2 today) ∧
    ListEmbeddings.fetch_active_models (l1 ++ (b, r') :: l2) today =
      some (ListEmbeddings.resultsOf l1 today ++
              (b, s') :: ListEmbeddings.resultsOf l2 today,
            ListEmbeddings.logsOf l1 today ++
              ListEmbeddings.logOf (b, r') today ::
                ListEmbeddings.logsOf l2 today) ∧
    (∅ : Finset String).card = 0 := by
  have hmem : ∀ (x : String × Response) (l' : List (String × Response)),
      (∀ p ∈ l1 ++ l2, (ListEmbeddings.regionResult p.2 today).isSome) →
      (ListEmbeddings.regionResult x.2 today).isSome →
      ∀ p ∈ l1 ++ x :: l2, (ListEmbeddings.regionResult p.2 today).isSome := by
    intro x _ hall hx p hp
    rcases List.mem_append.mp hp with hl | hr
    · exact hall p (List.mem_append.mpr (Or.inl hl))
    · rcases List.mem_cons.mp hr with hrfl | hr'
      · exact hrfl ▸ hx
      · exact hall p (List.mem_append.mpr (Or.inr hr'))
  have hfail := ListEmbeddings.fetch_eq_of_all_ok
    (l1 ++ (b, Response.httpError) :: l2) today
    (hmem (b, Response.httpError) l2 h1 (by simp [ListEmbeddings.regionResult]))
  have hok := ListEmbeddings.fetch_eq_of_all_ok (l1 ++ (b, r') :: l2) today
    (hmem (b, r') l2 h1 (by rw [h2]; rfl))
  refine ⟨?_, ?_, rfl⟩
  · rw [hfail]
    simp only [ListEmbeddings.resultsOf, ListEmbeddings.logsOf,
      List.map_append, List.map_cons, ListEmbeddings.regionResult,
      ListEmbeddings.logOf, Option.getD_some]
  · rw [hok]
    simp only [ListEmbeddings.resultsOf, ListEmbeddings.logsOf,
      List.map_append, List.map_cons, h2, Option.getD_some]

/-- C3 witness: with one succeeding region before it, a timed-out
region "B" is recorded as empty, logged as failed, and region "A" is
recorded exactly as in the run where "B" succeeds with {m3}. -/
theorem fetch_isolates_region_failure_witness :
    ListEmbeddings.fetch_active_models
        [("A", Response.ok (some [⟨some "m1", none⟩])),
         ("B", Response.httpError)] "2024-01-01" =
      some (ListEmbeddings.resultsOf
              [("A", Response.ok (some [⟨some "m1", none⟩]))] "2024-01-01" ++
              (("B" : String), (∅ : Finset String)) ::
                ListEmbeddings.resultsOf [] "2024-01-01",
            ListEmbeddings.logsOf
              [("A", Response.ok (some [⟨some "m1", none⟩]))] "2024-01-01" ++
              ListEmbeddings.LogEntry.fetchFailed "B" ::
                ListEmbeddings.logsOf [] "2024-01-01") ∧
    ListEmbeddings.fetch_active_models
        [("A", Response.ok (some [⟨some "m1", none⟩])),
         ("B", Response.ok (some [⟨some "m3", some []⟩]))] "2024-01-01" =
      some (ListEmbeddings.resultsOf
              [("A", Response.ok (some [⟨some "m1", none⟩]))] "2024-01-01" ++
              (("B" : String), ({"m3"} : Finset String)) ::
                ListEmbeddings.resultsOf [] "2024-01-01",
            ListEmbeddings.logsOf
              [("A", Response.ok (some [⟨some "m1", none⟩]))] "2024-01-01" ++
              ListEmbeddings.logOf
                  ("B", Response.ok (some [⟨some "m3", some []⟩])) "2024-01-01" ::
                ListEmbeddings.logsOf [] "2024-01-01") ∧
    (∅ : Finset String).card = 0 :=
  fetch_isolates_region_failure
    [("A", Response.ok (some [⟨some "m1", none⟩]))] []
    "B" (Response.ok (some [⟨some "m3", some []⟩])) "2024-01-01" {"m3"}
    (by decide) (by decide)

/-- C4 counterexample: a region whose parsed body has a resources
element without the "model_id" key.  The claim says this is treated as
a fetch failure for the region (empty set, run continues), but the
key-error is not a `RequestException`, so it propagates and the whole
run aborts instead of producing a result. -/
theorem fetch_shape_error_counterexample :
    ListEmbeddings.fetch_active_models
      [("https://us-south.ml.cloud.ibm.com",
        Response.ok (some [⟨none, some []⟩]))] "2024-01-01" = none := by
  decide

/-- C4 (amended): request-level failures — including a JSON body that
fails to decode, raised as a `RequestException` — and a body without the
"resources" key are tolerated (the region gets the empty set and the
run continues); but a resources element lacking "model_id" that passes
the lifecycle filter raises a key-error that propagates out of the
fetch loop, aborting the whole run. -/
theorem fetch_shape_error_aborts (l1 l2 : List (String × Response))
    (b today : String) (rs1 rs2 : List Resource) (m : Resource)
    (hm1 : ListEmbeddings.is_deprecated_or_withdrawn
      (m.lifecycle.getD []) today = false)
    (hm2 : m.model_id = none)
    (h1 : ∀ x ∈ rs1, ListEmbeddings.is_deprecated_or_withdrawn
      (x.lifecycle.getD []) today = true ∨ x.model_id.isSome) :
    ListEmbeddings.regionResult Response.httpError today =
      some (∅ : Finset String) ∧
    ListEmbeddings.regionResult (Response.ok none) today =
      some (∅ : Finset String) ∧
    ListEmbeddings.fetch_active_models
      (l1 ++ (b, Response.ok (some (rs1 ++ m :: rs2))) :: l2) today = none := by
  refine ⟨rfl, rfl, ?_⟩
  have hact : ListEmbeddings.activeModels (rs1 ++ m :: rs2) today = none := by
    have key : ∀ (acc : Finset String),
        List.foldlM
          (fun acc m =>
            if ListEmbeddings.is_deprecated_or_withdrawn
                (m.lifecycle.getD []) today then some acc
            else
              match m.model_id with
              | none => none
              | some i => some (insert i acc))
          acc (rs1 ++ m :: rs2) = none := by
      induction rs1 with
      | nil =>
        intro acc
        rw [List.nil_append, List.foldlM_cons, hm1]
        simp only [if_neg Bool.false_ne_true, hm2]
        rfl
      | cons x t ih =>
        intro acc
        rw [List.cons_append, List.foldlM_cons]
        rcases h1 x (List.mem_cons_self x t) with hx | hx
        · rw [hx]
          simp only [if_pos rfl]
          exact ih (fun y hy => h1 y (List.mem_cons_of_mem x hy)) acc
        · obtain ⟨i, hi⟩ := Option.isSome_iff_exists.mp hx
          by_cases hdep : ListEmbeddings.is_deprecated_or_withdrawn
            (x.lifecycle.getD []) today = true
          · rw [hdep]
            simp only [if_pos rfl]
            exact ih (fun y hy => h1 y (List.mem_cons_of_mem x hy)) acc
          · rw [Bool.not_eq_true] at hdep
            rw [hdep]
            simp only [if_neg Bool.false_ne_true, hi]
            exact ih (fun y hy => h1 y (List.mem_cons_of_mem x hy)) (insert i acc)
    exact key ∅
  exact ListEmbeddings.fetch_none_of_mem _ today b _
    (List.mem_append.mpr (Or.inr (List.mem_cons_self _ _)))
    (by simp only [ListEmbeddings.regionResult, Option.getD_some]; exact hact)

/-- C4 witness for the amended claim: the two tolerated malformed cases
yield the empty set, and a single region with a model-id-less resources
element aborts the concrete run. -/
theorem fetch_shape_error_aborts_witness :
    ListEmbeddings.regionResult Response.httpError "2024-01-01" =
      some (∅ : Finset String) ∧
    ListEmbeddings.regionResult (Response.ok none) "2024-01-01" =
      some (∅ : Finset String) ∧
    ListEmbeddings.fetch_active_models
      [("https://eu-de.ml.cloud.ibm.com",
        Response.ok (some [⟨some "m1", none⟩, ⟨none, some []⟩]))]
      "2024-01-01" = none :=
  fetch_shape_error_aborts [] [] "https://eu-de.ml.cloud.ibm.com" "2024-01-01"
    [⟨some "m1", none⟩] [] ⟨none, some []⟩ (by decide) rfl (by decide)

/-! ## Claim about the plugin's model-list fetch -/

/-- C8: on any fetch failure (network error, non-2xx status, JSON
decode failure) `fetch_models` returns exactly the fixed fallback list
of three default model ids; on success it returns the ascending sorted
list of the model_id values of the response's resources array. -/
theorem fetch_models_fallback_and_sorted :
    WatsonxComponent.fetch_models WatsonxComponent.FetchOutcome.requestError =
      WatsonxComponent._default_models ∧
    WatsonxComponent.fetch_models WatsonxComponent.FetchOutcome.valueError =
      WatsonxComponent._default_models ∧
    WatsonxComponent._default_models =
      ["ibm/granite-3-2b-instruct", "ibm/granite-3-8b-instruct",
       "ibm/granite-13b-instruct-v2"] ∧
    WatsonxComponent._default_models.length = 3 ∧
    ∀ (resources : List Resource) (models : List String),
      resources.mapM Resource.model_id = some models →
      List.Perm
        (WatsonxComponent.fetch_models
          (WatsonxComponent.FetchOutcome.ok (some resources))) models ∧
      List.Sorted strLe
        (WatsonxComponent.fetch_models (WatsonxComponent.FetchOutcome.ok (some resources))) := by
  refine ⟨rfl, rfl, rfl, rfl, ?_⟩
  intro resources models h
  have hfm : WatsonxComponent.fetch_models (WatsonxComponent.FetchOutcome.ok (some resources)) =
      models.insertionSort strLe := by
    simp only [WatsonxComponent.fetch_models, Option.getD_some, h]
  rw [hfm]
  exact ⟨List.perm_insertionSort strLe models,
    List.sorted_insertionSort strLe models⟩

/-- C8 witness: a successful response with ids ["m2", "m1"] yields
their sorted permutation, and the failure outcomes yield the default
list. -/
theorem fetch_models_fallback_and_sorted_witness :
    List.Perm
      (WatsonxComponent.fetch_models
        (WatsonxComponent.FetchOutcome.ok
          (some [⟨some "m2", none⟩, ⟨some "m1", some []⟩])))
      ["m2", "m1"] ∧
    List.Sorted strLe
      (WatsonxComponent.fetch_models
        (WatsonxComponent.FetchOutcome.ok (some [⟨some "m2", none⟩, ⟨some "m1", some []⟩]))) :=
  (fetch_models_fallback_and_sorted.2.2.2.2
    [⟨some "m2", none⟩, ⟨some "m1", some []⟩] ["m2", "m1"] (by decide))

end WatsonxSpec
